import Mathlib

/-!
Shallow embedding of the atlas_hfdatasets / atlas_hgdatasets command-line
utility.  The external collaborators (the hub client, the datasets library,
the regular-expression engine, standard input) are modelled as explicit
function parameters returning `Except`/`Option` errors; each workflow
function returns the list of external calls it performed (its trace)
together with the propagated error, if any.
-/

/-- Models the Python expression `s.split(sep)` specialised to `sep = the slash
character`, accumulating the current piece in `acc`. -/
def splitSlashAux : List Char → List Char → List String
  | [], acc => [String.mk acc]
  | c :: cs, acc =>
    if c = '/' then String.mk acc :: splitSlashAux cs []
    else splitSlashAux cs (acc ++ [c])

/-- Python `s.split(slash)`: never returns an empty list. -/
def splitSlash (s : String) : List String :=
  splitSlashAux s.data []

/-- Python `s.split(slash)[-1]`: the substring after the last slash
(also the behaviour of `os.path.basename` on POSIX). -/
def lastSlashComponent (s : String) : String :=
  (splitSlash s).getLastD ""

/-- True when the first character of `s` is a slash. -/
def headIsSlash (s : String) : Bool :=
  match s.data with
  | [] => false
  | c :: _ => c == '/'

/-- True when the last character of `s` is a slash. -/
def lastIsSlash (s : String) : Bool :=
  match s.data.getLast? with
  | some c => c == '/'
  | none => false

/-- Python `os.path.join(a, b)` for POSIX paths: an absolute second
component replaces the first; otherwise a separator is inserted unless the
first component is empty or already ends in one. -/
def osPathJoin (a b : String) : String :=
  if headIsSlash b then b
  else if a = "" ∨ lastIsSlash a then a ++ b
  else a ++ "/" ++ b

/-- Python `os.path.join(a, b, c)`, which folds the binary join left. -/
def osPathJoin3 (a b c : String) : String :=
  osPathJoin (osPathJoin a b) c

/-- Python `s.lower()`: lowercase every character. -/
def pyLower (s : String) : String :=
  String.mk (s.data.map Char.toLower)

/-- Error values carried by the modelled external calls (Python exception
messages). -/
abbrev Err := String

namespace HfDatasets

/-- External calls performed by the multi-config download workflow in
atlas_hfdatasets/src/download.py: a `load_dataset(repo, config)` call and a
`save_to_disk(path)` call. -/
inductive Ev
  | fetch (repo config : String)
  | save (path : String)
deriving DecidableEq

/-- The per-configuration loop of `download_dataset` in download.py: for each
config in order, call `load_dataset(repo_name, config)`, then save to
`os.path.join(output_dir, repo_name.split(slash)[-1], config)`.  A raised
exception aborts the loop and is propagated (the surrounding handler logs and
re-raises). -/
def processConfigs (fetchResult : String → String → Option Err)
    (saveResult : String → Option Err) (repo_name output_dir : String) :
    List String → List Ev × Option Err
  | [] => ([], none)
  | config :: rest =>
    match fetchResult repo_name config with
    | some e => ([Ev.fetch repo_name config], some e)
    | none =>
      let output_path := osPathJoin3 output_dir (lastSlashComponent repo_name) config
      match saveResult output_path with
      | some e => ([Ev.fetch repo_name config, Ev.save output_path], some e)
      | none =>
        let rest_result := processConfigs fetchResult saveResult repo_name output_dir rest
        (Ev.fetch repo_name config :: Ev.save output_path :: rest_result.1, rest_result.2)

/-- `download_dataset(repo_name, output_dir)` from download.py (the
multi-config variant, spec operation downloadAll): enumerate the configs with
`get_dataset_config_names`, then download and save each one in the returned
order.  Every failure, including the enumeration itself, is logged and
re-raised. -/
def download_dataset (getConfigNames : String → Except Err (List String))
    (fetchResult : String → String → Option Err) (saveResult : String → Option Err)
    (repo_name output_dir : String) : List Ev × Option Err :=
  match getConfigNames repo_name with
  | .error e => ([], some e)
  | .ok configs => processConfigs fetchResult saveResult repo_name output_dir configs

end HfDatasets

namespace HgDatasets

/-- External calls performed by `remove_dataset` in atlas_hgdatasets.py: the
interactive confirmation prompt and the `delete_repo` hub call. -/
inductive RmEv
  | prompt
  | delete (repo : String)
deriving DecidableEq

/-- `remove_dataset(repo_name, force)` from atlas_hgdatasets.py.  When
`force` is false the user is prompted; any answer whose lowercasing differs
from the string y cancels with no hub call.  Otherwise `delete_repo` is
called once; its failure, if any, propagates (there is no handler). -/
def remove_dataset (deleteResult : String → Option Err) (repo_name : String)
    (force : Bool) (stdin : String) : List RmEv × Option Err :=
  if force = false then
    if pyLower stdin ≠ "y" then ([RmEv.prompt], none)
    else ([RmEv.prompt, RmEv.delete repo_name], deleteResult repo_name)
  else ([RmEv.delete repo_name], deleteResult repo_name)

/-- The fields of a hub dataset entry used by `list_datasets`. -/
structure RepoMeta where
  id : String
  lastModified : String
  downloads : Nat
  tags : List String
deriving DecidableEq

/-- Python `tags = comma.join(dataset.tags) if dataset.tags else empty`. -/
def tagsSummary (tags : List String) : String :=
  if tags = [] then "" else String.intercalate ", " tags

/-- The tags column of a row: `tags[:30]` followed by an ellipsis marker
exactly when the summary is longer than 30 characters. -/
def renderTags (tags : String) : String :=
  String.mk (tags.data.take 30) ++ (if 30 < tags.data.length then "..." else "")

/-- Python `format` left alignment to width `w` (pads, never truncates). -/
def ljust (s : String) (w : Nat) : String :=
  s ++ String.mk (List.replicate (w - s.data.length) ' ')

/-- One formatted row of the listing report: id, last-modified, downloads
and the truncated tags summary in fixed-width columns. -/
def formatRow (d : RepoMeta) : String :=
  ljust d.id 40 ++ " " ++ ljust d.lastModified 25 ++ " " ++
    ljust (toString d.downloads) 10 ++ " " ++ ljust (renderTags (tagsSummary d.tags)) 30

/-- The distinct user-visible outcomes of `list_datasets`.  The function
always returns one of these; it never raises. -/
inductive ListOutcome
  | table (rows : List String)
  | noMatching (keyword : String)
  | noDatasets (username : String)
  | errorLogged (e : Err)
deriving DecidableEq

/-- The keyword filter inside `list_datasets`: when a keyword is given,
`re.compile(keyword, re.IGNORECASE)` is run (it may raise on an invalid
pattern) and the list is filtered by `pattern.search(d.id)`.  The compiled
matcher is modelled by the function the external engine returns. -/
def applyKeyword (reCompile : String → Except Err (String → Bool))
    (datasets : List RepoMeta) : Option String → Except Err (List RepoMeta)
  | none => .ok datasets
  | some kw =>
    match reCompile kw with
    | .error e => .error e
    | .ok pattern => .ok (datasets.filter (fun d => pattern d.id))

/-- The body of the `try` block of `list_datasets(username, keyword)`:
retrieve the repos of the author, report a distinct outcome when there are
none, otherwise filter by the keyword and report either the table or the
distinct no-match outcome. -/
def list_datasets_body (listRepos : Except Err (List RepoMeta))
    (reCompile : String → Except Err (String → Bool))
    (username : String) (keyword : Option String) : Except Err ListOutcome :=
  match listRepos with
  | .error e => .error e
  | .ok datasets =>
    if datasets = [] then .ok (.noDatasets username)
    else
      match applyKeyword reCompile datasets keyword with
      | .error e => .error e
      | .ok filtered =>
        if filtered = [] then .ok (.noMatching (keyword.getD ""))
        else .ok (.table (filtered.map formatRow))

/-- `list_datasets(username, keyword)` from atlas_hgdatasets.py: the whole
body runs inside one `try` whose handler logs the exception and returns
normally, so every error from retrieval or pattern compilation becomes the
`errorLogged` outcome. -/
def list_datasets (listRepos : Except Err (List RepoMeta))
    (reCompile : String → Except Err (String → Bool))
    (username : String) (keyword : Option String) : ListOutcome :=
  match list_datasets_body listRepos reCompile username keyword with
  | .ok o => o
  | .error e => .errorLogged e

/-- External call performed by `upload_dataset`: `push_to_hub(repo_name,
private=not public)`. -/
inductive UpEv
  | push (repo : String) (priv : Bool)
deriving DecidableEq

/-- Python `os.path.normpath` for POSIX paths: the count of leading slashes
kept in the result (two only for an exactly-double leading slash). -/
def leadSlashes (p : String) : Nat :=
  match p.data with
  | '/' :: '/' :: '/' :: _ => 1
  | '/' :: '/' :: _ => 2
  | '/' :: _ => 1
  | _ => 0

/-- Python `os.path.normpath` for POSIX paths: drops empty and dot
components, resolves double-dot components lexically, and keeps the leading
slashes. -/
def normpath (path : String) : String :=
  if path = "" then "."
  else
    let slashes := leadSlashes path
    let comps := splitSlash path
    let newComps := comps.foldl (fun acc comp =>
      if comp = "" ∨ comp = "." then acc
      else if comp ≠ ".." ∨ (slashes = 0 ∧ acc = []) ∨ (acc ≠ [] ∧ acc.getLast? = some "..") then
        acc ++ [comp]
      else if acc ≠ [] then acc.dropLast
      else acc) []
    let joined := String.intercalate "/" newComps
    let result := String.mk (List.replicate slashes '/') ++ joined
    if result = "" then "." else result

/-- Python `os.path.basename` for POSIX paths: the part after the last
slash. -/
def basename (p : String) : String :=
  lastSlashComponent p

/-- `upload_dataset(dataset_path, repo_name, public)` from
atlas_hgdatasets.py: load the dataset from disk (failure propagates, there
is no handler); when `repo_name` is omitted derive it as
`os.path.basename(os.path.normpath(dataset_path))`; push with
`private = not public` (push failure propagates). -/
def upload_dataset (loadResult : Option Err) (pushResult : String → Bool → Option Err)
    (dataset_path : String) (repo_name : Option String) (public : Bool) :
    List UpEv × Option Err :=
  match loadResult with
  | some e => ([], some e)
  | none =>
    let repo := match repo_name with
      | none => basename (normpath dataset_path)
      | some r => r
    ([UpEv.push repo (!public)], pushResult repo (!public))

/-- External calls performed by the whole-repo `download_dataset` in
atlas_hgdatasets.py: `load_dataset(repo)` and `save_to_disk(path)`. -/
inductive DlEv
  | fetchAll (repo : String)
  | save (path : String)
deriving DecidableEq

/-- `download_dataset(repo_name, output_dir)` from atlas_hgdatasets.py (the
whole-repo variant, spec operation downloadWhole): fetch the repo without a
configuration and save it to `os.path.join(output_dir,
repo_name.split(slash)[-1])`.  Failures are logged and re-raised. -/
def download_dataset (loadResult : Option Err) (saveResult : String → Option Err)
    (repo_name output_dir : String) : List DlEv × Option Err :=
  match loadResult with
  | some e => ([DlEv.fetchAll repo_name], some e)
  | none =>
    let output_path := osPathJoin output_dir (lastSlashComponent repo_name)
    ([DlEv.fetchAll repo_name, DlEv.save output_path], saveResult output_path)

/-- A value held by an attribute of the argparse result namespace. -/
inductive PyVal
  | str (s : String)
  | bool (b : Bool)
deriving DecidableEq

/-- Attribute lookup on the argparse namespace: a missing attribute raises
AttributeError. -/
def getattrEx (ns : List (String × PyVal)) (name : String) : Except Err PyVal :=
  match ns.find? (fun p => p.1 = name) with
  | some p => .ok p.2
  | none => .error ("AttributeError: " ++ name)

/-- The namespace argparse would produce for `remove <repo_name> [-f]`: the
remove subparser defines exactly the attributes command, repo_name and f
(the -r option belongs to the upload subparser only). -/
def removeArgs (repoId : String) (force : Bool) : List (String × PyVal) :=
  [("command", PyVal.str "remove"), ("repo_name", PyVal.str repoId), ("f", PyVal.bool force)]

/-- A dispatched library call with the argument values main passed. -/
inductive Dispatched
  | removeCall (repo : PyVal) (force : PyVal)
deriving DecidableEq

/-- The remove branch of `main` in atlas_hgdatasets.py as written:
`remove_dataset(args.r, args.f)` (note the attribute r, not repo_name). -/
def dispatchRemove (args : List (String × PyVal)) : Except Err Dispatched :=
  match getattrEx args "r" with
  | .error e => .error e
  | .ok r =>
    match getattrEx args "f" with
    | .error e => .error e
    | .ok f => .ok (.removeCall r f)

end HgDatasets

/-! Helper lemmas about the path helpers and the download loop. -/

theorem splitSlashAux_ne_nil (l acc : List Char) : splitSlashAux l acc ≠ [] := by
  induction l generalizing acc with
  | nil => simp [splitSlashAux]
  | cons c cs ih =>
    by_cases h : c = '/'
    · simp [splitSlashAux, h]
    · simpa [splitSlashAux, h] using ih (acc ++ [c])

theorem getLastD_irrel {l : List String} (h : l ≠ []) (d d' : String) :
    l.getLastD d = l.getLastD d' := by
  cases l with
  | nil => exact absurd rfl h
  | cons a l => rw [List.getLastD_cons, List.getLastD_cons]

theorem splitSlashAux_no_slash (l acc : List Char) (h : '/' ∉ l) :
    splitSlashAux l acc = [String.mk (acc ++ l)] := by
  induction l generalizing acc with
  | nil => simp [splitSlashAux]
  | cons c cs ih =>
    have hc : c ≠ '/' := fun hc => h (hc ▸ List.mem_cons_self c cs)
    have hcs : '/' ∉ cs := fun hm => h (List.mem_cons_of_mem c hm)
    rw [splitSlashAux, if_neg hc, ih (acc ++ [c]) hcs, List.append_assoc]
    rfl

theorem splitSlashAux_append_slash (l₁ l₂ acc : List Char) :
    (splitSlashAux (l₁ ++ '/' :: l₂) acc).getLastD "" =
      (splitSlashAux l₂ []).getLastD "" := by
  induction l₁ generalizing acc with
  | nil =>
    rw [List.nil_append, splitSlashAux, if_pos rfl, List.getLastD_cons]
    exact getLastD_irrel (splitSlashAux_ne_nil l₂ []) _ _
  | cons c cs ih =>
    by_cases h : c = '/'
    · subst h
      rw [List.cons_append, splitSlashAux, if_pos rfl, List.getLastD_cons]
      rw [getLastD_irrel (splitSlashAux_ne_nil (cs ++ '/' :: l₂) []) _ ""]
      exact ih []
    · rw [List.cons_append, splitSlashAux, if_neg h]
      exact ih (acc ++ [c])

theorem lastSlashComponent_append (owner name : String) (h : '/' ∉ name.data) :
    lastSlashComponent (owner ++ "/" ++ name) = name := by
  have hdata : (owner ++ "/" ++ name).data = owner.data ++ '/' :: name.data := by
    rw [String.data_append, String.data_append, List.append_assoc]
    rfl
  rw [lastSlashComponent, splitSlash, hdata, splitSlashAux_append_slash,
    splitSlashAux_no_slash name.data [] h, List.nil_append]
  rfl

theorem processConfigs_all_ok (fetch : String → String → Option Err)
    (save : String → Option Err) (repo out : String) (configs : List String)
    (hok : ∀ c ∈ configs, fetch repo c = none ∧
      save (osPathJoin3 out (lastSlashComponent repo) c) = none) :
    HfDatasets.processConfigs fetch save repo out configs =
      (configs.flatMap fun c =>
        [HfDatasets.Ev.fetch repo c,
         HfDatasets.Ev.save (osPathJoin3 out (lastSlashComponent repo) c)], none) := by
  induction configs with
  | nil => rfl
  | cons c cs ih =>
    obtain ⟨hf, hs⟩ := hok c (List.mem_cons_self c cs)
    have ihr := ih (fun x hx => hok x (List.mem_cons_of_mem c hx))
    simp [HfDatasets.processConfigs, hf, hs, ihr]

theorem processConfigs_fail_at (fetch : String → String → Option Err)
    (save : String → Option Err) (repo out : String)
    (pre : List String) (c : String) (post : List String) (e : Err)
    (hpre : ∀ x ∈ pre, fetch repo x = none ∧
      save (osPathJoin3 out (lastSlashComponent repo) x) = none)
    (hfail : fetch repo c = some e ∨ (fetch repo c = none ∧
      save (osPathJoin3 out (lastSlashComponent repo) c) = some e)) :
    HfDatasets.processConfigs fetch save repo out (pre ++ c :: post) =
      ((pre.flatMap fun x =>
        [HfDatasets.Ev.fetch repo x,
         HfDatasets.Ev.save (osPathJoin3 out (lastSlashComponent repo) x)]) ++
        [HfDatasets.Ev.fetch repo c], some e) ∨
    HfDatasets.processConfigs fetch save repo out (pre ++ c :: post) =
      ((pre.flatMap fun x =>
        [HfDatasets.Ev.fetch repo x,
         HfDatasets.Ev.save (osPathJoin3 out (lastSlashComponent repo) x)]) ++
        [HfDatasets.Ev.fetch repo c,
         HfDatasets.Ev.save (osPathJoin3 out (lastSlashComponent repo) c)], some e) := by
  induction pre with
  | nil =>
    rcases hfail with hf | ⟨hf, hs⟩
    · left
      simp [HfDatasets.processConfigs, hf]
    · right
      simp [HfDatasets.processConfigs, hf, hs]
  | cons x xs ih =>
    obtain ⟨hf, hs⟩ := hpre x (List.mem_cons_self x xs)
    rcases ih (fun y hy => hpre y (List.mem_cons_of_mem x hy)) with h | h
    · left
      simp [HfDatasets.processConfigs, hf, hs, h]
    · right
      simp [HfDatasets.processConfigs, hf, hs, h]

/-! Claim theorems. -/

/-- Claim C1: when the configuration enumeration returns the list
c_1..c_N and every fetch and save succeeds, download_dataset (downloadAll)
performs exactly one fetch and one save per configuration, in enumeration
order, saving configuration c to the path obtained by joining output_dir,
the repo short name (the part of the repo id after the last slash) and c. -/
theorem C1_downloadAll_per_config (getConfigNames : String → Except Err (List String))
    (fetch : String → String → Option Err) (save : String → Option Err)
    (repo out : String) (configs : List String)
    (hcfg : getConfigNames repo = .ok configs)
    (hok : ∀ c ∈ configs, fetch repo c = none ∧
      save (osPathJoin3 out (lastSlashComponent repo) c) = none) :
    HfDatasets.download_dataset getConfigNames fetch save repo out =
      (configs.flatMap fun c =>
        [HfDatasets.Ev.fetch repo c,
         HfDatasets.Ev.save (osPathJoin3 out (lastSlashComponent repo) c)], none) := by
  unfold HfDatasets.download_dataset
  rw [hcfg]
  exact processConfigs_all_ok fetch save repo out configs hok

/-- Witness for C1 at a concrete two-configuration repository. -/
theorem C1_witness :
    HfDatasets.download_dataset (fun _ => .ok ["a", "b"]) (fun _ _ => none)
      (fun _ => none) "owner/name" "out" =
      (["a", "b"].flatMap fun c =>
        [HfDatasets.Ev.fetch "owner/name" c,
         HfDatasets.Ev.save (osPathJoin3 "out" (lastSlashComponent "owner/name") c)], none) :=
  C1_downloadAll_per_config (fun _ => .ok ["a", "b"]) (fun _ _ => none) (fun _ => none)
    "owner/name" "out" ["a", "b"] rfl (by decide)

/-- Claim C2: when fetching or saving the configuration c fails (with all
earlier configurations succeeding), the whole operation stops at c: the trace
contains only the steps for the earlier configurations and c itself, nothing
for any later configuration, no retry, and the error is propagated. -/
theorem C2_failure_aborts (getConfigNames : String → Except Err (List String))
    (fetch : String → String → Option Err) (save : String → Option Err)
    (repo out : String) (pre : List String) (c : String) (post : List String) (e : Err)
    (hcfg : getConfigNames repo = .ok (pre ++ c :: post))
    (hpre : ∀ x ∈ pre, fetch repo x = none ∧
      save (osPathJoin3 out (lastSlashComponent repo) x) = none)
    (hfail : fetch repo c = some e ∨ (fetch repo c = none ∧
      save (osPathJoin3 out (lastSlashComponent repo) c) = some e)) :
    (HfDatasets.download_dataset getConfigNames fetch save repo out).2 = some e ∧
      ((HfDatasets.download_dataset getConfigNames fetch save repo out).1 =
        (pre.flatMap fun x =>
          [HfDatasets.Ev.fetch repo x,
           HfDatasets.Ev.save (osPathJoin3 out (lastSlashComponent repo) x)]) ++
          [HfDatasets.Ev.fetch repo c] ∨
       (HfDatasets.download_dataset getConfigNames fetch save repo out).1 =
        (pre.flatMap fun x =>
          [HfDatasets.Ev.fetch repo x,
           HfDatasets.Ev.save (osPathJoin3 out (lastSlashComponent repo) x)]) ++
          [HfDatasets.Ev.fetch repo c,
           HfDatasets.Ev.save (osPathJoin3 out (lastSlashComponent repo) c)]) := by
  have hp := processConfigs_fail_at fetch save repo out pre c post e hpre hfail
  simp only [HfDatasets.download_dataset, hcfg]
  rcases hp with h | h
  · rw [h]
    exact ⟨rfl, Or.inl rfl⟩
  · rw [h]
    exact ⟨rfl, Or.inr rfl⟩

/-- Witness for C2: the second of three configurations fails to fetch. -/
theorem C2_witness :
    (HfDatasets.download_dataset (fun _ => .ok ["a", "b", "c"])
      (fun _ c => if c = "b" then some "boom" else none) (fun _ => none)
      "owner/name" "out").2 = some "boom" ∧
      ((HfDatasets.download_dataset (fun _ => .ok ["a", "b", "c"])
        (fun _ c => if c = "b" then some "boom" else none) (fun _ => none)
        "owner/name" "out").1 =
        (["a"].flatMap fun x =>
          [HfDatasets.Ev.fetch "owner/name" x,
           HfDatasets.Ev.save (osPathJoin3 "out" (lastSlashComponent "owner/name") x)]) ++
          [HfDatasets.Ev.fetch "owner/name" "b"] ∨
       (HfDatasets.download_dataset (fun _ => .ok ["a", "b", "c"])
        (fun _ c => if c = "b" then some "boom" else none) (fun _ => none)
        "owner/name" "out").1 =
        (["a"].flatMap fun x =>
          [HfDatasets.Ev.fetch "owner/name" x,
           HfDatasets.Ev.save (osPathJoin3 "out" (lastSlashComponent "owner/name") x)]) ++
          [HfDatasets.Ev.fetch "owner/name" "b",
           HfDatasets.Ev.save (osPathJoin3 "out" (lastSlashComponent "owner/name") "b")]) :=
  C2_failure_aborts (fun _ => .ok ["a", "b", "c"])
    (fun _ c => if c = "b" then some "boom" else none) (fun _ => none)
    "owner/name" "out" ["a"] "b" ["c"] "boom" rfl (by decide) (Or.inl (by decide))

/-- Claim C3: remove_dataset calls delete_repo exactly once if and only if
force is set or the lowercased confirmation input is the string y; any other
input with force unset produces no hub call and no error, and with force set
no prompt is shown. -/
theorem C3_remove_confirmation (deleteResult : String → Option Err)
    (repo stdin : String) (force : Bool) :
    (((HgDatasets.remove_dataset deleteResult repo force stdin).1.count
        (HgDatasets.RmEv.delete repo) = 1) ↔ (force = true ∨ pyLower stdin = "y")) ∧
    (force = false → pyLower stdin ≠ "y" →
      HgDatasets.remove_dataset deleteResult repo force stdin =
        ([HgDatasets.RmEv.prompt], none)) ∧
    (force = true →
      HgDatasets.RmEv.prompt ∉ (HgDatasets.remove_dataset deleteResult repo force stdin).1) := by
  cases force with
  | true =>
    refine ⟨?_, fun h => absurd h (by simp), fun _ => ?_⟩
    · simp [HgDatasets.remove_dataset]
    · simp [HgDatasets.remove_dataset]
  | false =>
    by_cases h : pyLower stdin = "y"
    · refine ⟨?_, fun _ hne => absurd h hne, fun hf => absurd hf (by simp)⟩
      simp [HgDatasets.remove_dataset, h]
    · refine ⟨?_, fun _ _ => ?_, fun hf => absurd hf (by simp)⟩
      · simp [HgDatasets.remove_dataset, h]
      · simp [HgDatasets.remove_dataset, h]

/-- Witness for C3: with force unset and the simulated input n, only the
prompt happens and the call returns without error. -/
theorem C3_witness :
    HgDatasets.remove_dataset (fun _ => none) "owner/ds" false "n" =
      ([HgDatasets.RmEv.prompt], none) :=
  (C3_remove_confirmation (fun _ => none) "owner/ds" "n" false).2.1 rfl (by decide)

/-- Claim C4: with a keyword whose compiled matcher is m, list_datasets
keeps exactly the entries whose id the matcher accepts (a List.filter, hence
in their original relative order); a non-empty author listing with no match
gives the distinct noMatching outcome, and an empty author listing gives the
distinct noDatasets outcome instead. -/
theorem C4_keyword_filter (ds : List HgDatasets.RepoMeta)
    (reCompile : String → Except Err (String → Bool)) (u kw : String)
    (m : String → Bool) (hc : reCompile kw = .ok m) :
    (ds ≠ [] → ds.filter (fun d => m d.id) ≠ [] →
      HgDatasets.list_datasets (.ok ds) reCompile u (some kw) =
        .table ((ds.filter (fun d => m d.id)).map HgDatasets.formatRow)) ∧
    (ds ≠ [] → ds.filter (fun d => m d.id) = [] →
      HgDatasets.list_datasets (.ok ds) reCompile u (some kw) = .noMatching kw) ∧
    (ds = [] →
      HgDatasets.list_datasets (.ok ds) reCompile u (some kw) = .noDatasets u) := by
  refine ⟨fun h1 h2 => ?_, fun h1 h2 => ?_, fun h1 => ?_⟩
  · simp [HgDatasets.list_datasets, HgDatasets.list_datasets_body,
      HgDatasets.applyKeyword, hc, h1, h2]
  · simp [HgDatasets.list_datasets, HgDatasets.list_datasets_body,
      HgDatasets.applyKeyword, hc, h1, h2]
  · simp [HgDatasets.list_datasets, HgDatasets.list_datasets_body, h1]

/-- Witness for C4 at a concrete two-entry listing where exactly the first
entry matches. -/
theorem C4_witness :
    HgDatasets.list_datasets
      (.ok [⟨"owner/foo", "2024", 1, []⟩, ⟨"owner/bar", "2024", 2, []⟩])
      (fun _ => .ok (fun s => s == "owner/foo")) "u" (some "foo") =
      .table (([⟨"owner/foo", "2024", 1, []⟩, ⟨"owner/bar", "2024", 2, []⟩].filter
        (fun d => (fun s => s == "owner/foo") d.id)).map HgDatasets.formatRow) :=
  (C4_keyword_filter [⟨"owner/foo", "2024", 1, []⟩, ⟨"owner/bar", "2024", 2, []⟩]
    (fun _ => .ok (fun s => s == "owner/foo")) "u" "foo"
    (fun s => s == "owner/foo") rfl).1 (by decide) (by decide)

/-- Claim C5 (code bug): the remove branch of main reads the attribute r,
which the remove subparser never defines (its positional is repo_name), so
for every parsed repository id and force flag the dispatch raises
AttributeError instead of passing the parsed id to remove_dataset. -/
theorem C5_remove_dispatch_attribute_error (repoId : String) (force : Bool) :
    HgDatasets.dispatchRemove (HgDatasets.removeArgs repoId force) =
      .error "AttributeError: r" :=
  rfl

/-- Claim C6: a tags summary longer than 30 characters renders as its first
30 characters followed by the ellipsis marker; one of at most 30 characters
renders unmodified with no marker. -/
theorem C6_tags_truncation (tags : String) :
    (30 < tags.data.length →
      HgDatasets.renderTags tags = String.mk (tags.data.take 30) ++ "...") ∧
    (tags.data.length ≤ 30 → HgDatasets.renderTags tags = tags) := by
  constructor
  · intro h
    rw [HgDatasets.renderTags, if_pos h]
  · intro h
    rw [HgDatasets.renderTags, if_neg (Nat.not_lt.2 h)]
    apply String.ext
    rw [String.data_append, List.take_of_length_le h]
    exact List.append_nil _

/-- Witness for C6 at a 31-character summary and a 30-character summary. -/
theorem C6_witness :
    HgDatasets.renderTags "abcdefghijklmnopqrstuvwxyz01234" =
      "abcdefghijklmnopqrstuvwxyz0123" ++ "..." ∧
    HgDatasets.renderTags "abcdefghijklmnopqrstuvwxyz0123" =
      "abcdefghijklmnopqrstuvwxyz0123" := by
  constructor
  · exact ((C6_tags_truncation "abcdefghijklmnopqrstuvwxyz01234").1 (by decide)).trans
      (by decide)
  · exact (C6_tags_truncation "abcdefghijklmnopqrstuvwxyz0123").2 (by decide)

/-- Claim C7: a retrieval failure makes list_datasets return the logged
outcome normally (no propagation), while a failure anywhere in downloadAll
(config enumeration or a fetch), in the whole-repo download (fetch or save),
in upload (load or push) or in remove (delete, forced or confirmed)
propagates to the caller. -/
theorem C7_error_propagation_policy (e : Err)
    (reCompile : String → Except Err (String → Bool)) (u : String)
    (k : Option String) (fetch : String → String → Option Err)
    (save : String → Option Err) (pushResult : String → Bool → Option Err)
    (repo out path : String) (rn : Option String) (pub : Bool) (stdin : String) :
    HgDatasets.list_datasets (.error e) reCompile u k = .errorLogged e ∧
    (HfDatasets.download_dataset (fun _ => .error e) fetch save repo out).2 = some e ∧
    (HfDatasets.download_dataset (fun _ => .ok [""]) (fun _ _ => some e) save repo out).2
      = some e ∧
    (HgDatasets.download_dataset (some e) save repo out).2 = some e ∧
    (HgDatasets.download_dataset none (fun _ => some e) repo out).2 = some e ∧
    (HgDatasets.upload_dataset (some e) pushResult path rn pub).2 = some e ∧
    (HgDatasets.upload_dataset none (fun _ _ => some e) path rn pub).2 = some e ∧
    (HgDatasets.remove_dataset (fun _ => some e) repo true stdin).2 = some e ∧
    (HgDatasets.remove_dataset (fun _ => some e) repo false "y").2 = some e := by
  refine ⟨rfl, rfl, rfl, rfl, rfl, rfl, rfl, ?_, ?_⟩
  · simp [HgDatasets.remove_dataset]
  · simp [HgDatasets.remove_dataset, pyLower]

/-- Claim C8: upload_dataset with the repo name omitted pushes under the
basename of the normalized dataset path, and with public unset the push is
private; at the concrete path of the claim the derived name is myset. -/
theorem C8_upload_derives_name (pushResult : String → Bool → Option Err)
    (path : String) :
    (HgDatasets.upload_dataset none pushResult path none false).1 =
      [HgDatasets.UpEv.push (HgDatasets.basename (HgDatasets.normpath path)) true] ∧
    HgDatasets.basename (HgDatasets.normpath "/data/myset") = "myset" := by
  exact ⟨rfl, by decide⟩

/-- Claim C9: the whole-repo download saves to output_dir joined with the
part of the repo id after the last slash, with no configuration
subdirectory. -/
theorem C9_downloadWhole_path (saveResult : String → Option Err)
    (owner name output_dir : String) (h : '/' ∉ name.data) :
    HgDatasets.download_dataset none saveResult (owner ++ "/" ++ name) output_dir =
      ([HgDatasets.DlEv.fetchAll (owner ++ "/" ++ name),
        HgDatasets.DlEv.save (osPathJoin output_dir name)],
        saveResult (osPathJoin output_dir name)) := by
  have hl := lastSlashComponent_append owner name h
  simp [HgDatasets.download_dataset, hl]

/-- Witness for C9: repo owner/name with output directory /tmp/x saves to
/tmp/x/name. -/
theorem C9_witness :
    HgDatasets.download_dataset none (fun _ => none) ("owner" ++ "/" ++ "name") "/tmp/x" =
      ([HgDatasets.DlEv.fetchAll ("owner" ++ "/" ++ "name"),
        HgDatasets.DlEv.save (osPathJoin "/tmp/x" "name")], none) ∧
    osPathJoin "/tmp/x" "name" = "/tmp/x/name" :=
  ⟨C9_downloadWhole_path (fun _ => none) "owner" "name" "/tmp/x" (by decide), by decide⟩

/-- Claim C10: the keyword is compiled inside the same try block whose
handler swallows retrieval errors, so an invalid regular expression keyword
makes list_datasets return the logged outcome normally (or the noDatasets
outcome when the author has no repos, in which case the compile is never
reached); it never raises. -/
theorem C10_invalid_regex_swallowed (ds : List HgDatasets.RepoMeta)
    (reCompile : String → Except Err (String → Bool)) (u kw : String) (e : Err)
    (hc : reCompile kw = .error e) :
    (ds ≠ [] →
      HgDatasets.list_datasets (.ok ds) reCompile u (some kw) = .errorLogged e) ∧
    (ds = [] →
      HgDatasets.list_datasets (.ok ds) reCompile u (some kw) = .noDatasets u) := by
  constructor
  · intro h
    simp [HgDatasets.list_datasets, HgDatasets.list_datasets_body,
      HgDatasets.applyKeyword, hc, h]
  · intro h
    simp [HgDatasets.list_datasets, HgDatasets.list_datasets_body, h]

/-- Witness for C10 at a one-entry listing and an unbalanced-bracket
keyword whose compilation fails. -/
theorem C10_witness :
    HgDatasets.list_datasets (.ok [⟨"owner/foo", "2024", 1, []⟩])
      (fun _ => .error "bad pattern") "u" (some "[unbalanced") =
      .errorLogged "bad pattern" :=
  (C10_invalid_regex_swallowed [⟨"owner/foo", "2024", 1, []⟩]
    (fun _ => .error "bad pattern") "u" "[unbalanced" "bad pattern" rfl).1 (by decide)
